import Mathlib

set_option maxRecDepth 10000

namespace MoneyMap

/-! Shallow embedding of the recurring-income routes of the money_map_backend
repository (`src/routes/recurring.routes.js`): the occurrence generator
(`POST /:id/generate`), the rule-creation coercions (`POST /`), and the
persistence step (`db.transaction` over `INSERT INTO incomes`).  Dates are
embedded as year/month/day triples; the date-fns calendar arithmetic used by
the route (`addDays`, `addWeeks`, `addMonths`, `addYears`, `isAfter`) is
embedded below following the documented behaviour of those functions. -/

/-- Calendar date (year, month, day): the date-only content of the JS `Date`
values the route manipulates via `parseISO` and `toISOString().slice(0,10)`. -/
structure Date where
  year : Nat
  month : Nat
  day : Nat
deriving DecidableEq

/-- Gregorian leap-year rule. -/
def isLeapYear (y : Nat) : Bool :=
  (y % 4 = 0 && y % 100 ≠ 0) || y % 400 = 0

/-- Number of days in month `m` of year `y` (months are 1-based). -/
def daysInMonth (y m : Nat) : Nat :=
  if m = 2 then (if isLeapYear y then 29 else 28)
  else if m = 4 ∨ m = 6 ∨ m = 9 ∨ m = 11 then 30
  else 31

/-- A date is valid when its month is 1..12 and its day exists in that month. -/
def Date.Valid (d : Date) : Prop :=
  1 ≤ d.month ∧ d.month ≤ 12 ∧ 1 ≤ d.day ∧ d.day ≤ daysInMonth d.year d.month

instance (d : Date) : Decidable (Date.Valid d) := by
  unfold Date.Valid; exact inferInstance

/-- Chronological (lexicographic) strict order on dates; for valid dates this
is exactly the timestamp order date-fns `isAfter` compares with. -/
def Date.Lt (a b : Date) : Prop :=
  a.year < b.year ∨
    (a.year = b.year ∧ (a.month < b.month ∨ (a.month = b.month ∧ a.day < b.day)))

instance (a b : Date) : Decidable (Date.Lt a b) := by
  unfold Date.Lt; exact inferInstance

/-- date-fns `isAfter(a, b)`: `true` iff `a` is strictly after `b`. -/
def isAfter (a b : Date) : Bool :=
  decide (Date.Lt b a)

/-- The day after `d` (with month/year rollover). -/
def nextDay (d : Date) : Date :=
  if d.day < daysInMonth d.year d.month then ⟨d.year, d.month, d.day + 1⟩
  else if d.month < 12 then ⟨d.year, d.month + 1, 1⟩
  else ⟨d.year + 1, 1, 1⟩

/-- date-fns `addDays(d, n)` for `n ≥ 0`: advance `n` calendar days. -/
def addDays (d : Date) : Nat → Date
  | 0 => d
  | n + 1 => addDays (nextDay d) n

/-- date-fns `addWeeks(d, n)`: advance `7 * n` calendar days. -/
def addWeeks (d : Date) (n : Nat) : Date :=
  addDays d (7 * n)

/-- date-fns `addMonths(d, n)`: advance `n` calendar months; a day-of-month
that does not exist in the target month is clamped to that month's last day.
The target month is the 0-based month index `d.year * 12 + (d.month - 1) + n`. -/
def addMonths (d : Date) (n : Nat) : Date :=
  ⟨(d.year * 12 + (d.month - 1) + n) / 12,
   (d.year * 12 + (d.month - 1) + n) % 12 + 1,
   min d.day (daysInMonth ((d.year * 12 + (d.month - 1) + n) / 12)
     ((d.year * 12 + (d.month - 1) + n) % 12 + 1))⟩

/-- date-fns `addYears(d, n)`: advance `n` years, clamping Feb 29 to Feb 28
in a non-leap target year. -/
def addYears (d : Date) (n : Nat) : Date :=
  ⟨d.year + n, d.month, min d.day (daysInMonth (d.year + n) d.month)⟩

/-- `addInterval` from recurring.routes.js: switch on the frequency string,
with `addMonths` as the `default` case for unknown frequencies. -/
def addInterval (date : Date) (frequency : String) (interval : Nat) : Date :=
  if frequency = "daily" then addDays date interval
  else if frequency = "weekly" then addWeeks date interval
  else if frequency = "monthly" then addMonths date interval
  else if frequency = "yearly" then addYears date interval
  else addMonths date interval

/-- A stored `recurring_incomes` row as read by the generate route.  `interval`
and `occurrences` are nullable integer columns (modelled non-negative, matching
every value the claims quantify over); `endDate` is a nullable date. -/
structure Rule where
  amount : Int
  category : String
  description : String
  startDate : Date
  frequency : String
  interval : Option Nat
  occurrences : Option Nat
  endDate : Option Date
deriving DecidableEq

/-- JS `rule.interval || 1`: a null/undefined/zero interval is coerced to 1. -/
def intervalOr1 : Option Nat → Nat
  | none => 1
  | some 0 => 1
  | some (n + 1) => n + 1

/-- JS `rule.occurrences && count > rule.occurrences`: the break condition of
the generate loop; a null or zero `occurrences` is falsy, so no limit applies. -/
def occLimitHit : Option Nat → Nat → Bool
  | none, _ => false
  | some n, count => if n = 0 then false else decide (n < count)

/-- One element of the route's `occurrences` array:
`{date, amount, category, description}`. -/
structure Occurrence where
  date : Date
  amount : Int
  category : String
  description : String
deriving DecidableEq

/-- What one loop iteration pushes onto `occurrences`: nothing when
`!isAfter(cursor, start)` (the "before start -> skip" branch), otherwise the
occurrence `{date: cursor, amount, category, description}`. -/
def emitOcc (cursor : Date) (amount : Int) (category description : String)
    (start : Date) : List Occurrence :=
  if isAfter cursor start then
    [{ date := cursor, amount := amount, category := category,
       description := description }]
  else []

/-- The generate route's while loop (recurring.routes.js, `POST /:id/generate`):
while `!isAfter(cursor, end)`: push an occurrence unless `!isAfter(cursor, start)`,
increment `count`, break when `rule.occurrences && count > rule.occurrences`,
and advance the cursor by `addInterval(cursor, rule.frequency, rule.interval || 1)`.
`fuel` bounds the number of iterations; `none` means the fuel ran out before
the loop exited. -/
def genLoop (freq : String) (ival : Nat) (occLimit : Option Nat) (amount : Int)
    (category description : String) (start endD : Date) :
    Nat → Date → Nat → Option (List Occurrence)
  | 0, _, _ => none
  | fuel + 1, cursor, count =>
    if isAfter cursor endD then some []
    else if occLimitHit occLimit (count + 1) then
      some (emitOcc cursor amount category description start)
    else
      (genLoop freq ival occLimit amount category description start endD
          fuel (addInterval cursor freq ival) (count + 1)).map
        (fun rest => emitOcc cursor amount category description start ++ rest)

/-- The loop's upper bound: `parseISO(to || rule.endDate || new Date().toISOString())`
— a supplied `to` wins, otherwise the rule's `endDate`, otherwise the current
clock (`now`). -/
def windowEnd (r : Rule) (wTo : Option Date) (now : Date) : Date :=
  wTo.getD (r.endDate.getD now)

/-- Linear measure on dates, strictly monotone along `Date.Lt` for valid dates. -/
def dateMeasure (d : Date) : Nat :=
  384 * d.year + 32 * d.month + d.day

/-- Fuel sufficient for the generate loop: one iteration per day between the
start cursor and the window end, plus the final exit check. -/
def genFuel (r : Rule) (endD : Date) : Nat :=
  (dateMeasure endD + 1 - dateMeasure r.startDate) + 1

/-- The generate route (recurring.routes.js, `POST /:id/generate`):
`start = parseISO(from || rule.startDate)`, `end = parseISO(to || rule.endDate || now)`,
cursor starts at `rule.startDate`, then the while loop above.  Returns `none`
only when the fuel bound is exhausted (the JS loop would still be running). -/
def generate (r : Rule) (wFrom wTo : Option Date) (now : Date) :
    Option (List Occurrence) :=
  genLoop r.frequency (intervalOr1 r.interval) r.occurrences r.amount r.category
    r.description (wFrom.getD r.startDate) (windowEnd r wTo now)
    (genFuel r (windowEnd r wTo now)) r.startDate 0

/-- The request body of `POST /` (rule creation). -/
structure CreateBody where
  amount : Int
  category : String
  description : Option String
  startDate : Date
  frequency : String
  interval : Option Nat
  occurrences : Option Nat
  endDate : Option Date
deriving DecidableEq

/-- The row stored by `POST /` (recurring.routes.js): `description || ''`,
`interval || 1`, `occurrences || null`, `endDate || null`. -/
def createRule (b : CreateBody) : Rule :=
  { amount := b.amount
    category := b.category
    description := b.description.getD ""
    startDate := b.startDate
    frequency := b.frequency
    interval := some (intervalOr1 b.interval)
    occurrences := match b.occurrences with
      | some 0 => none
      | x => x
    endDate := b.endDate }

/-- A row of the `incomes` table as inserted by the persist step.  The `uuidv4`
primary keys are modelled by a freshness counter: every insert receives a new
id, as fresh UUIDs never collide with existing rows. -/
structure Income where
  id : Nat
  amount : Int
  category : String
  description : String
  date : Date
  createdAt : Date
deriving DecidableEq

/-- `insert.run(uuidv4(), Number(r.amount), r.category, r.description || '', r.date, now)`
for one generated occurrence. -/
def mkIncome (nid : Nat) (now : Date) (o : Occurrence) : Income :=
  { id := nid, amount := o.amount, category := o.category,
    description := o.description, date := o.date, createdAt := now }

/-- Database state visible to the recurring routes: the `incomes` rows, the id
freshness counter, and the stored `recurring_incomes` rows. -/
structure Store where
  incomes : List Income
  nextId : Nat
  rules : List Rule
deriving DecidableEq

/-- The body of the `db.transaction((rows) => {...})` callback: insert the rows
one by one.  `fails` abstracts a storage failure on an individual row (the
thrown `PersistenceError`); the first failure aborts the whole run. -/
def runInserts (fails : Occurrence → Bool) (now : Date) :
    Nat → List Income → List Occurrence → Option (List Income × Nat)
  | nid, recs, [] => some (recs, nid)
  | nid, recs, o :: rest =>
    if fails o then none
    else runInserts fails now (nid + 1) (recs ++ [mkIncome nid now o]) rest

/-- `insertMany(occurrences)`: better-sqlite3 `db.transaction` semantics — the
callback's inserts commit together, and if any statement throws, the
transaction rolls back and the database is left unchanged.  The second
component reports success (`false` = the exception propagated to the caller). -/
def insertMany (fails : Occurrence → Bool) (now : Date) (st : Store)
    (occs : List Occurrence) : Store × Bool :=
  match runInserts fails now st.nextId st.incomes occs with
  | some (recs, nid) => ({ st with incomes := recs, nextId := nid }, true)
  | none => (st, false)

/-- The list of rows a fully successful batch inserts, with ids counting up
from `nid`. -/
def mkRecords (nid : Nat) (now : Date) : List Occurrence → List Income
  | [] => []
  | o :: rest => mkIncome nid now o :: mkRecords (nid + 1) now rest

/-! Concrete rules used to evaluate the routes on the spec's scenarios. -/

/-- The spec's weekly scenario rule: 1000 every 2 weeks from 2024-01-01,
capped at 3 occurrences. -/
def weeklyRule : Rule :=
  { amount := 1000, category := "salary", description := "", startDate := ⟨2024, 1, 1⟩,
    frequency := "weekly", interval := some 2, occurrences := some 3, endDate := none }

/-- The spec's monthly clamp rule: monthly from 2024-01-31. -/
def monthClampRule : Rule :=
  { amount := 500, category := "rent", description := "", startDate := ⟨2024, 1, 31⟩,
    frequency := "monthly", interval := some 1, occurrences := none, endDate := none }

/-- Daily rule starting one day inside the window, capped at 3 occurrences. -/
def dailyCapRule : Rule :=
  { amount := 10, category := "salary", description := "", startDate := ⟨2024, 1, 2⟩,
    frequency := "daily", interval := some 1, occurrences := some 3, endDate := none }

/-- Daily rule with an end date of 2024-01-05. -/
def endDateRule : Rule :=
  { amount := 10, category := "salary", description := "", startDate := ⟨2024, 1, 1⟩,
    frequency := "daily", interval := some 1, occurrences := none,
    endDate := some ⟨2024, 1, 5⟩ }

/-- Daily rule with neither an end date nor an occurrence cap: its window end
defaults to the current clock. -/
def horizonRule : Rule :=
  { amount := 10, category := "salary", description := "", startDate := ⟨2024, 1, 1⟩,
    frequency := "daily", interval := some 1, occurrences := none, endDate := none }

/-- Rule whose frequency string is not one of the four supported values. -/
def badFreqRule : Rule :=
  { amount := 10, category := "salary", description := "", startDate := ⟨2024, 1, 1⟩,
    frequency := "hourly", interval := some 1, occurrences := none, endDate := none }

/-- Rule whose stored interval is 0 (less than 1). -/
def zeroIntervalRule : Rule :=
  { amount := 10, category := "salary", description := "", startDate := ⟨2024, 1, 1⟩,
    frequency := "daily", interval := some 0, occurrences := none, endDate := none }

/-- An initially empty store. -/
def emptyStore : Store :=
  { incomes := [], nextId := 0, rules := [] }

/-! Lemmas about the calendar arithmetic. -/

theorem daysInMonth_pos (y m : Nat) : 1 ≤ daysInMonth y m := by
  unfold daysInMonth
  split
  · split <;> omega
  · split <;> omega

theorem daysInMonth_le (y m : Nat) : daysInMonth y m ≤ 31 := by
  unfold daysInMonth
  split
  · split <;> omega
  · split <;> omega

theorem Date.Lt.trans {a b c : Date} (h1 : Date.Lt a b) (h2 : Date.Lt b c) :
    Date.Lt a c := by
  unfold Date.Lt at *
  omega

theorem isAfter_iff {a b : Date} : isAfter a b = true ↔ Date.Lt b a := by
  simp [isAfter]

theorem dateMeasure_lt {a b : Date} (hab : Date.Lt a b) (ha : a.Valid) (hb : b.Valid) :
    dateMeasure a < dateMeasure b := by
  have h1 := daysInMonth_le a.year a.month
  have h2 := daysInMonth_le b.year b.month
  unfold Date.Valid at ha hb
  unfold Date.Lt at hab
  unfold dateMeasure
  omega

theorem dateMeasure_le {a b : Date} (hab : ¬ Date.Lt b a) (ha : a.Valid) (hb : b.Valid) :
    dateMeasure a ≤ dateMeasure b := by
  have h1 := daysInMonth_le a.year a.month
  have h2 := daysInMonth_le b.year b.month
  unfold Date.Valid at ha hb
  unfold Date.Lt at hab
  unfold dateMeasure
  omega

theorem nextDay_valid {d : Date} (h : d.Valid) : (nextDay d).Valid := by
  have h1 := daysInMonth_pos d.year (d.month + 1)
  have h2 := daysInMonth_pos (d.year + 1) 1
  unfold Date.Valid at *
  unfold nextDay
  split
  · dsimp only
    omega
  · split
    · dsimp only
      omega
    · dsimp only
      omega

theorem nextDay_lt {d : Date} : Date.Lt d (nextDay d) := by
  unfold Date.Lt nextDay
  split
  · dsimp only
    omega
  · split
    · dsimp only
      omega
    · dsimp only
      omega

theorem addDays_valid (n : Nat) (d : Date) (h : d.Valid) : (addDays d n).Valid := by
  induction n generalizing d with
  | zero => exact h
  | succ k ih =>
    simp only [addDays]
    exact ih (nextDay d) (nextDay_valid h)

theorem addDays_lt (n : Nat) (d : Date) : Date.Lt d (addDays d (n + 1)) := by
  induction n generalizing d with
  | zero => exact nextDay_lt
  | succ k ih =>
    simp only [addDays]
    exact Date.Lt.trans nextDay_lt (ih (nextDay d))

theorem addMonths_valid (n : Nat) (d : Date) (h : d.Valid) : (addMonths d n).Valid := by
  have h1 := daysInMonth_pos ((d.year * 12 + (d.month - 1) + n) / 12)
    ((d.year * 12 + (d.month - 1) + n) % 12 + 1)
  unfold Date.Valid at *
  unfold addMonths
  dsimp only
  omega

theorem addMonths_lt (n : Nat) (d : Date) (h : d.Valid) :
    Date.Lt d (addMonths d (n + 1)) := by
  unfold Date.Valid at h
  unfold Date.Lt addMonths
  dsimp only
  omega

theorem addYears_valid (n : Nat) (d : Date) (h : d.Valid) : (addYears d n).Valid := by
  have h1 := daysInMonth_pos (d.year + n) d.month
  unfold Date.Valid at *
  unfold addYears
  dsimp only
  omega

theorem addYears_lt (n : Nat) (d : Date) : Date.Lt d (addYears d (n + 1)) := by
  unfold Date.Lt addYears
  dsimp only
  omega

theorem intervalOr1_pos (i : Option Nat) : 1 ≤ intervalOr1 i := by
  unfold intervalOr1
  split <;> omega

theorem addInterval_valid {d : Date} (f : String) (i : Nat) (h : d.Valid) :
    (addInterval d f i).Valid := by
  unfold addInterval
  split
  · exact addDays_valid i d h
  · split
    · exact addDays_valid (7 * i) d h
    · split
      · exact addMonths_valid i d h
      · split
        · exact addYears_valid i d h
        · exact addMonths_valid i d h

theorem addInterval_lt {d : Date} (f : String) {i : Nat} (hi : 1 ≤ i) (h : d.Valid) :
    Date.Lt d (addInterval d f i) := by
  obtain ⟨j, rfl⟩ : ∃ j, i = j + 1 := ⟨i - 1, by omega⟩
  unfold addInterval
  split
  · exact addDays_lt j d
  · split
    · have h7 : 7 * (j + 1) = (7 * j + 6) + 1 := by omega
      unfold addWeeks
      rw [h7]
      exact addDays_lt (7 * j + 6) d
    · split
      · exact addMonths_lt j d h
      · split
        · exact addYears_lt j d
        · exact addMonths_lt j d h

/-! Lemmas about the generate loop. -/

theorem emitOcc_mem {cursor : Date} {amount : Int} {category description : String}
    {start : Date} {o : Occurrence}
    (h : o ∈ emitOcc cursor amount category description start) :
    o.date = cursor ∧ Date.Lt start cursor := by
  unfold emitOcc at h
  split at h
  · rename_i hc
    simp at h
    subst h
    exact ⟨rfl, isAfter_iff.mp hc⟩
  · simp at h

theorem emitOcc_length (cursor : Date) (amount : Int) (category description : String)
    (start : Date) : (emitOcc cursor amount category description start).length ≤ 1 := by
  unfold emitOcc
  split <;> simp

/-- Termination of the generate loop: with a coerced interval of at least 1
every iteration strictly advances the cursor, so any fuel exceeding the number
of days up to the window end makes the loop exit normally. -/
theorem genLoop_isSome (freq : String) {ival : Nat} (occLimit : Option Nat)
    (amount : Int) (category description : String) (start : Date) {endD : Date}
    (hiv : 1 ≤ ival) (hend : endD.Valid) :
    ∀ fuel cursor count, cursor.Valid →
      dateMeasure endD + 1 - dateMeasure cursor < fuel →
      (genLoop freq ival occLimit amount category description start endD
        fuel cursor count).isSome := by
  intro fuel
  induction fuel with
  | zero =>
    intro cursor count _ h
    omega
  | succ k ih =>
    intro cursor count hc h
    simp only [genLoop]
    split
    · simp
    · rename_i hafter
      split
      · simp
      · have hnl : ¬ Date.Lt endD cursor := by
          intro hx
          exact hafter (isAfter_iff.mpr hx)
        have hv' : (addInterval cursor freq ival).Valid := addInterval_valid freq ival hc
        have hm1 : dateMeasure cursor < dateMeasure (addInterval cursor freq ival) :=
          dateMeasure_lt (addInterval_lt freq hiv hc) hc hv'
        have hm2 : dateMeasure cursor ≤ dateMeasure endD := dateMeasure_le hnl hc hend
        have hrec := ih (addInterval cursor freq ival) (count + 1) hv' (by omega)
        obtain ⟨v, hv⟩ := Option.isSome_iff_exists.mp hrec
        rw [hv]
        simp

/-- Every occurrence the loop emits lies strictly after the window start and
not after the window end. -/
theorem genLoop_mem (freq : String) (ival : Nat) (occLimit : Option Nat)
    (amount : Int) (category description : String) (start endD : Date) :
    ∀ fuel cursor count occs,
      genLoop freq ival occLimit amount category description start endD
        fuel cursor count = some occs →
      ∀ o ∈ occs, Date.Lt start o.date ∧ ¬ Date.Lt endD o.date := by
  intro fuel
  induction fuel with
  | zero =>
    intro cursor count occs h
    simp [genLoop] at h
  | succ k ih =>
    intro cursor count occs h
    simp only [genLoop] at h
    split at h
    · simp at h
      subst h
      intro o ho
      simp at ho
    · rename_i hafter
      have hnl : ¬ Date.Lt endD cursor := by
        intro hx
        exact hafter (isAfter_iff.mpr hx)
      split at h
      · simp at h
        subst h
        intro o ho
        obtain ⟨hdate, hlt⟩ := emitOcc_mem ho
        rw [hdate]
        exact ⟨hlt, hnl⟩
      · cases hgl : genLoop freq ival occLimit amount category description start endD
            k (addInterval cursor freq ival) (count + 1) with
        | none =>
          rw [hgl] at h
          simp at h
        | some rest =>
          rw [hgl] at h
          simp at h
          subst h
          intro o ho
          rcases List.mem_append.mp ho with hL | hR
          · obtain ⟨hdate, hlt⟩ := emitOcc_mem hL
            rw [hdate]
            exact ⟨hlt, hnl⟩
          · exact ih (addInterval cursor freq ival) (count + 1) rest hgl o hR

/-- Length bound of the generate loop under a non-zero occurrence limit: the
counter increments once per iteration and the loop breaks one iteration after
the counter passes the limit, so at most `n + 1 - count` further occurrences
are emitted from a state with counter `count ≤ n`. -/
theorem genLoop_length (freq : String) (ival : Nat) (amount : Int)
    (category description : String) (start endD : Date) (n : Nat) (hn : n ≠ 0) :
    ∀ fuel cursor count occs, count ≤ n →
      genLoop freq ival (some n) amount category description start endD
        fuel cursor count = some occs →
      occs.length + count ≤ n + 1 := by
  intro fuel
  induction fuel with
  | zero =>
    intro cursor count occs _ h
    simp [genLoop] at h
  | succ k ih =>
    intro cursor count occs hcount h
    simp only [genLoop] at h
    split at h
    · simp at h
      subst h
      simp
      omega
    · split at h
      · rename_i hhit
        have hle := emitOcc_length cursor amount category description start
        simp at h
        subst h
        have hhit2 : (if n = 0 then false else decide (n < count + 1)) = true := hhit
        rw [if_neg hn] at hhit2
        have : n < count + 1 := of_decide_eq_true hhit2
        omega
      · rename_i hhit
        have hhit2 : ¬ ((if n = 0 then false else decide (n < count + 1)) = true) := hhit
        rw [if_neg hn] at hhit2
        have hnothit : ¬ n < count + 1 := by
          intro hx
          exact hhit2 (decide_eq_true hx)
        cases hgl : genLoop freq ival (some n) amount category description start endD
            k (addInterval cursor freq ival) (count + 1) with
        | none =>
          rw [hgl] at h
          simp at h
        | some rest =>
          rw [hgl] at h
          simp at h
          subst h
          have hrec := ih (addInterval cursor freq ival) (count + 1) rest (by omega) hgl
          have hle := emitOcc_length cursor amount category description start
          simp [List.length_append]
          omega

/-- The loop reads the frequency string only through `addInterval`, so two
frequencies with the same cursor advance yield the same output. -/
theorem genLoop_congr_freq (f1 f2 : String) (ival : Nat) (occLimit : Option Nat)
    (amount : Int) (category description : String) (start endD : Date)
    (hadd : ∀ d, addInterval d f1 ival = addInterval d f2 ival) :
    ∀ fuel cursor count,
      genLoop f1 ival occLimit amount category description start endD fuel cursor count
        = genLoop f2 ival occLimit amount category description start endD fuel cursor count := by
  intro fuel
  induction fuel with
  | zero => intro cursor count; rfl
  | succ k ih =>
    intro cursor count
    simp only [genLoop]
    rw [hadd, ih]

/-- If the whole window lies strictly before the start bound, nothing can be
emitted: every emitted occurrence would be after `start` yet not after `endD`. -/
theorem genLoop_empty (freq : String) (ival : Nat) (occLimit : Option Nat)
    (amount : Int) (category description : String) (start endD : Date)
    (hw : Date.Lt endD start) :
    ∀ fuel cursor count occs,
      genLoop freq ival occLimit amount category description start endD
        fuel cursor count = some occs →
      occs = [] := by
  intro fuel cursor count occs h
  cases occs with
  | nil => rfl
  | cons o rest =>
    have hmem := genLoop_mem freq ival occLimit amount category description start endD
      fuel cursor count (o :: rest) h o (by simp)
    exact absurd (Date.Lt.trans hw hmem.1) hmem.2

/-! Lemmas about the persistence step. -/

theorem mkRecords_length (now : Date) :
    ∀ (occs : List Occurrence) (nid : Nat),
      (mkRecords nid now occs).length = occs.length := by
  intro occs
  induction occs with
  | nil => intro nid; rfl
  | cons o rest ih =>
    intro nid
    simp [mkRecords, ih]

theorem runInserts_eq (fails : Occurrence → Bool) (now : Date) :
    ∀ (occs : List Occurrence) (nid : Nat) (recs : List Income),
      runInserts fails now nid recs occs = none ∨
      runInserts fails now nid recs occs
        = some (recs ++ mkRecords nid now occs, nid + occs.length) := by
  intro occs
  induction occs with
  | nil =>
    intro nid recs
    right
    simp [runInserts, mkRecords]
  | cons o rest ih =>
    intro nid recs
    simp only [runInserts]
    split
    · left
      rfl
    · rcases ih (nid + 1) (recs ++ [mkIncome nid now o]) with h | h
      · left
        exact h
      · right
        rw [h]
        simp [mkRecords, List.append_assoc]
        omega

theorem runInserts_noFail (now : Date) :
    ∀ (occs : List Occurrence) (nid : Nat) (recs : List Income),
      runInserts (fun _ => false) now nid recs occs
        = some (recs ++ mkRecords nid now occs, nid + occs.length) := by
  intro occs
  induction occs with
  | nil =>
    intro nid recs
    simp [runInserts, mkRecords]
  | cons o rest ih =>
    intro nid recs
    simp only [runInserts]
    rw [if_neg (by simp)]
    rw [ih (nid + 1) (recs ++ [mkIncome nid now o])]
    simp [mkRecords, List.append_assoc]
    omega

/-! The claims. -/

/-- C1: the claim says the weekly scenario rule over the window
[2024-01-01, 2024-12-31] emits 2024-01-01, 2024-01-15 and 2024-01-29, with the
at-window-start occurrence emitted.  The route instead skips the occurrence
equal to the window start (its skip condition is `!isAfter(cursor, start)`,
i.e. cursor ≤ start, although the inline comment reads "before start -> skip"),
and its limit check is applied only after the counter passes the limit, so the
emitted dates are 2024-01-15, 2024-01-29 and 2024-02-12. -/
theorem mm_c1_code :
    (generate weeklyRule (some ⟨2024, 1, 1⟩) (some ⟨2024, 12, 31⟩) ⟨2024, 1, 1⟩).map
        (List.map Occurrence.date)
      = some [⟨2024, 1, 15⟩, ⟨2024, 1, 29⟩, ⟨2024, 2, 12⟩] ∧
    ¬ (generate weeklyRule (some ⟨2024, 1, 1⟩) (some ⟨2024, 12, 31⟩) ⟨2024, 1, 1⟩).map
        (List.map Occurrence.date)
      = some [⟨2024, 1, 1⟩, ⟨2024, 1, 15⟩, ⟨2024, 1, 29⟩] := by decide

/-- C2 counterexample: a daily rule with `occurrences = 3` whose start date lies
strictly inside the window emits 4 occurrences, because the loop breaks only
when `count > rule.occurrences` and `count` is incremented after the emission
of the current iteration. -/
theorem mm_c2_counterexample :
    dailyCapRule.occurrences = some 3 ∧
    (generate dailyCapRule (some ⟨2024, 1, 1⟩) (some ⟨2024, 12, 31⟩) ⟨2024, 1, 1⟩).map
        List.length
      = some 4 := by decide

/-- C2 amended: for every rule with a non-zero occurrence limit `n`, the
sequence returned by generate has length at most `n + 1` (not `n`): skipped
occurrences before the window start do count toward the limit, but the break
check `count > rule.occurrences` runs after the current iteration has already
emitted, allowing one extra occurrence. -/
theorem mm_c2_amended (r : Rule) (wFrom wTo : Option Date) (now : Date) (n : Nat)
    (occs : List Occurrence) (h1 : r.occurrences = some n) (h2 : n ≠ 0)
    (h3 : generate r wFrom wTo now = some occs) :
    occs.length ≤ n + 1 := by
  unfold generate at h3
  rw [h1] at h3
  have := genLoop_length r.frequency (intervalOr1 r.interval) r.amount r.category
    r.description (wFrom.getD r.startDate) (windowEnd r wTo now) n h2
    (genFuel r (windowEnd r wTo now)) r.startDate 0 occs (Nat.zero_le n) h3
  omega

/-- C2 witness: the amended bound instantiated on the daily capped rule. -/
theorem mm_c2_witness :
    ([{ date := ⟨2024, 1, 2⟩, amount := 10, category := "salary", description := "" },
      { date := ⟨2024, 1, 3⟩, amount := 10, category := "salary", description := "" },
      { date := ⟨2024, 1, 4⟩, amount := 10, category := "salary", description := "" },
      { date := ⟨2024, 1, 5⟩, amount := 10, category := "salary", description := "" }] :
        List Occurrence).length ≤ 3 + 1 :=
  mm_c2_amended dailyCapRule (some ⟨2024, 1, 1⟩) (some ⟨2024, 12, 31⟩) ⟨2024, 1, 1⟩ 3
    [{ date := ⟨2024, 1, 2⟩, amount := 10, category := "salary", description := "" },
     { date := ⟨2024, 1, 3⟩, amount := 10, category := "salary", description := "" },
     { date := ⟨2024, 1, 4⟩, amount := 10, category := "salary", description := "" },
     { date := ⟨2024, 1, 5⟩, amount := 10, category := "salary", description := "" }]
    (by decide) (by decide) (by decide)

/-- C3 counterexample: the rule has `endDate = 2024-01-05` but the request
supplies `to = 2024-01-10`; since the window end is computed as
`to || rule.endDate || now`, the supplied `to` replaces the end date entirely,
and occurrences after the end date are emitted. -/
theorem mm_c3_counterexample :
    endDateRule.endDate = some ⟨2024, 1, 5⟩ ∧
    ((generate endDateRule (some ⟨2024, 1, 1⟩) (some ⟨2024, 1, 10⟩) ⟨2024, 1, 1⟩).getD
        []).any (fun o => decide (Date.Lt ⟨2024, 1, 5⟩ o.date))
      = true := by decide

/-- C3 amended: the end date bounds the emitted occurrences only when the
request omits `to` (the window end then defaults to `rule.endDate`): in that
case no emitted occurrence is after the end date.  A supplied `to` replaces
`endDate` as the loop's upper bound even when it is later. -/
theorem mm_c3_amended (r : Rule) (wFrom : Option Date) (now e : Date)
    (occs : List Occurrence) (h1 : r.endDate = some e)
    (h2 : generate r wFrom none now = some occs) :
    ∀ o ∈ occs, ¬ Date.Lt e o.date := by
  have hend : windowEnd r none now = e := by
    simp [windowEnd, h1]
  unfold generate at h2
  rw [hend] at h2
  intro o ho
  exact (genLoop_mem r.frequency (intervalOr1 r.interval) r.occurrences r.amount
    r.category r.description (wFrom.getD r.startDate) e (genFuel r e) r.startDate 0
    occs h2 o ho).2

/-- C3 witness: the amended bound instantiated on the end-dated daily rule. -/
theorem mm_c3_witness :
    ¬ Date.Lt ⟨2024, 1, 5⟩ ⟨2024, 1, 2⟩ :=
  mm_c3_amended endDateRule (some ⟨2024, 1, 1⟩) ⟨2024, 1, 10⟩ ⟨2024, 1, 5⟩
    [{ date := ⟨2024, 1, 2⟩, amount := 10, category := "salary", description := "" },
     { date := ⟨2024, 1, 3⟩, amount := 10, category := "salary", description := "" },
     { date := ⟨2024, 1, 4⟩, amount := 10, category := "salary", description := "" },
     { date := ⟨2024, 1, 5⟩, amount := 10, category := "salary", description := "" }]
    (by decide) (by decide)
    { date := ⟨2024, 1, 2⟩, amount := 10, category := "salary", description := "" }
    (by decide)

/-- C4 counterexample: the monthly rule starting 2024-01-31 does not produce
2024-02-29, 2024-03-31, 2024-04-30 as its next three occurrences. -/
theorem mm_c4_counterexample :
    ¬ (generate monthClampRule (some ⟨2024, 1, 31⟩) (some ⟨2024, 4, 30⟩) ⟨2024, 1, 1⟩).map
        (List.map Occurrence.date)
      = some [⟨2024, 2, 29⟩, ⟨2024, 3, 31⟩, ⟨2024, 4, 30⟩] := by decide

/-- C4 amended: each monthly advance clamps a non-existing day-of-month to the
last valid day of the target month, but the clamp is applied to the cursor and
is never undone — the intended day-of-month is not restored in later months —
so the rule's next three occurrences are 2024-02-29, 2024-03-29 and 2024-04-29. -/
theorem mm_c4_amended :
    (generate monthClampRule (some ⟨2024, 1, 31⟩) (some ⟨2024, 4, 30⟩) ⟨2024, 1, 1⟩).map
        (List.map Occurrence.date)
      = some [⟨2024, 2, 29⟩, ⟨2024, 3, 29⟩, ⟨2024, 4, 29⟩] ∧
    ∀ (d : Date) (n : Nat),
      (addMonths d n).day ≤ daysInMonth (addMonths d n).year (addMonths d n).month ∧
      (addMonths d n).day ≤ d.day :=
  ⟨by decide, fun d n => ⟨Nat.min_le_right _ _, Nat.min_le_left _ _⟩⟩

/-- C5 counterexample: generate never fails.  A frequency outside the four
supported values falls into the switch's default case and behaves as monthly;
an interval of 0 (less than 1) is coerced to 1; and a window with
`from > to` yields an empty occurrence list — all three return a sequence. -/
theorem mm_c5_counterexample :
    (generate badFreqRule (some ⟨2024, 1, 1⟩) (some ⟨2024, 3, 31⟩) ⟨2024, 1, 1⟩).map
        (List.map Occurrence.date)
      = some [⟨2024, 2, 1⟩, ⟨2024, 3, 1⟩] ∧
    (generate zeroIntervalRule (some ⟨2024, 1, 1⟩) (some ⟨2024, 1, 3⟩) ⟨2024, 1, 1⟩).map
        (List.map Occurrence.date)
      = some [⟨2024, 1, 2⟩, ⟨2024, 1, 3⟩] ∧
    generate horizonRule (some ⟨2024, 1, 10⟩) (some ⟨2024, 1, 5⟩) ⟨2024, 1, 1⟩
      = some [] := by decide

/-- C5 amended: generate performs no input validation and raises no error:
a rule whose frequency is outside {daily, weekly, monthly, yearly} behaves
exactly as the same rule with frequency monthly (the switch's default case),
and a window with `from > to` returns the empty occurrence sequence. -/
theorem mm_c5_amended :
    (∀ (r : Rule) (wFrom wTo : Option Date) (now : Date),
        r.frequency ≠ "daily" → r.frequency ≠ "weekly" → r.frequency ≠ "monthly" →
        r.frequency ≠ "yearly" →
        generate r wFrom wTo now
          = generate { r with frequency := "monthly" } wFrom wTo now) ∧
    (∀ (r : Rule) (f t now : Date), r.startDate.Valid → t.Valid → Date.Lt t f →
        generate r (some f) (some t) now = some []) := by
  constructor
  · intro r wFrom wTo now h1 h2 h3 h4
    exact genLoop_congr_freq r.frequency "monthly" (intervalOr1 r.interval)
      r.occurrences r.amount r.category r.description (wFrom.getD r.startDate)
      (windowEnd r wTo now)
      (fun d => by
        unfold addInterval
        rw [if_neg h1, if_neg h2, if_neg h3, if_neg h4,
          if_neg (show ("monthly" : String) ≠ "daily" by decide),
          if_neg (show ("monthly" : String) ≠ "weekly" by decide),
          if_pos rfl])
      (genFuel r (windowEnd r wTo now)) r.startDate 0
  · intro r f t now hs ht hw
    have hsome := genLoop_isSome r.frequency r.occurrences r.amount r.category
      r.description f (intervalOr1_pos r.interval) ht (genFuel r t) r.startDate 0 hs
      (by unfold genFuel; omega)
    obtain ⟨occs, hocc⟩ := Option.isSome_iff_exists.mp hsome
    have hnil : occs = [] := genLoop_empty r.frequency (intervalOr1 r.interval)
      r.occurrences r.amount r.category r.description f t hw (genFuel r t)
      r.startDate 0 occs hocc
    unfold generate
    rw [show windowEnd r (some t) now = t from rfl,
      show (some f).getD r.startDate = f from rfl]
    rw [hocc, hnil]

/-- C5 witness: the amended behaviour instantiated on the unknown-frequency
rule and on an inverted window. -/
theorem mm_c5_witness :
    generate horizonRule (some ⟨2024, 1, 10⟩) (some ⟨2024, 1, 5⟩) ⟨2024, 1, 1⟩
      = some [] ∧
    generate badFreqRule (some ⟨2024, 1, 1⟩) (some ⟨2024, 3, 31⟩) ⟨2024, 1, 1⟩
      = generate { badFreqRule with frequency := "monthly" } (some ⟨2024, 1, 1⟩)
          (some ⟨2024, 3, 31⟩) ⟨2024, 1, 1⟩ :=
  ⟨mm_c5_amended.2 horizonRule ⟨2024, 1, 10⟩ ⟨2024, 1, 5⟩ ⟨2024, 1, 1⟩
      (by decide) (by decide) (by decide),
   mm_c5_amended.1 badFreqRule (some ⟨2024, 1, 1⟩) (some ⟨2024, 3, 31⟩) ⟨2024, 1, 1⟩
      (by decide) (by decide) (by decide) (by decide)⟩

/-- C6 counterexample: persisting the same 2-occurrence generated batch twice
yields 4 income records, not 2.  Every insert uses a fresh id, and no filter on
a `lastProcessedDate` watermark exists in the route (the column is never read
or written), so overlapping requests double-insert. -/
theorem mm_c6_counterexample :
    ((generate weeklyRule (some ⟨2023, 12, 31⟩) (some ⟨2024, 1, 20⟩)
        ⟨2024, 1, 1⟩).getD []).length = 2 ∧
    (insertMany (fun _ => false) ⟨2024, 1, 1⟩
        (insertMany (fun _ => false) ⟨2024, 1, 1⟩ emptyStore
          ((generate weeklyRule (some ⟨2023, 12, 31⟩) (some ⟨2024, 1, 20⟩)
            ⟨2024, 1, 1⟩).getD [])).1
        ((generate weeklyRule (some ⟨2023, 12, 31⟩) (some ⟨2024, 1, 20⟩)
          ⟨2024, 1, 1⟩).getD [])).1.incomes.length = 4 := by decide

/-- C6 amended: materialization is not idempotent.  Two successful persist
calls over the same occurrence list insert every record again — each row gets
a fresh id and nothing filters by a watermark — so the resulting record count
is the initial count plus twice the occurrence count. -/
theorem mm_c6_amended (now : Date) (st : Store) (occs : List Occurrence) :
    (insertMany (fun _ => false) now
        (insertMany (fun _ => false) now st occs).1 occs).1.incomes.length
      = st.incomes.length + 2 * occs.length := by
  unfold insertMany
  rw [runInserts_noFail now occs st.nextId st.incomes]
  dsimp only
  rw [runInserts_noFail now occs (st.nextId + occs.length)
    (st.incomes ++ mkRecords st.nextId now occs)]
  dsimp only
  simp [List.length_append, mkRecords_length]
  omega

/-- C7: a single persist call is an atomic batch under better-sqlite3
transaction semantics: either every supplied occurrence is inserted (ids
counting up from the store's counter) and the call succeeds, or the store —
including the stored rules — is left exactly unchanged and the failure
propagates. -/
theorem mm_c7 (fails : Occurrence → Bool) (now : Date) (st : Store)
    (occs : List Occurrence) :
    ((insertMany fails now st occs).2 = true ∧
      (insertMany fails now st occs).1.incomes
        = st.incomes ++ mkRecords st.nextId now occs ∧
      (insertMany fails now st occs).1.rules = st.rules) ∨
    ((insertMany fails now st occs).2 = false ∧
      (insertMany fails now st occs).1 = st) := by
  rcases runInserts_eq fails now occs st.nextId st.incomes with h | h
  · right
    unfold insertMany
    rw [h]
    exact ⟨rfl, rfl⟩
  · left
    unfold insertMany
    rw [h]
    exact ⟨rfl, rfl, rfl⟩

/-- C8 counterexample: with `to` omitted and no end date on the rule, the
window end defaults to the current clock, so two calls with identical
arguments made at different times return different sequences. -/
theorem mm_c8_counterexample :
    generate horizonRule none none ⟨2024, 1, 1⟩
      ≠ generate horizonRule none none ⟨2024, 1, 2⟩ := by decide

/-- C8 amended: generate is deterministic whenever its window end does not fall
back to the clock — i.e. when the request supplies `to`, or the rule has an
`endDate`.  Only the clock-defaulted case is time-dependent. -/
theorem mm_c8_amended (r : Rule) (wFrom wTo : Option Date) (t1 t2 : Date)
    (h : wTo ≠ none ∨ r.endDate ≠ none) :
    generate r wFrom wTo t1 = generate r wFrom wTo t2 := by
  have hwe : windowEnd r wTo t1 = windowEnd r wTo t2 := by
    unfold windowEnd
    cases wTo with
    | some t => rfl
    | none =>
      cases hE : r.endDate with
      | some e => rfl
      | none =>
        rcases h with h | h
        · exact absurd rfl h
        · exact absurd hE h
  unfold generate
  rw [hwe]

/-- C8 witness: determinism instantiated with a supplied `to` and two different
clock values. -/
theorem mm_c8_witness :
    generate horizonRule none (some ⟨2024, 3, 1⟩) ⟨2024, 1, 1⟩
      = generate horizonRule none (some ⟨2024, 3, 1⟩) ⟨2024, 6, 1⟩ :=
  mm_c8_amended horizonRule none (some ⟨2024, 3, 1⟩) ⟨2024, 1, 1⟩ ⟨2024, 6, 1⟩
    (Or.inl (by decide))

/-- C9: for every rule over valid calendar dates, generate terminates with a
finite sequence: the coerced interval is always at least 1, so every loop
iteration strictly advances the cursor by at least one day, and the cursor
eventually passes the window end (which always exists: `to`, else `endDate`,
else the clock). -/
theorem mm_c9 (r : Rule) (wFrom wTo : Option Date) (now : Date)
    (h1 : r.startDate.Valid) (h2 : (windowEnd r wTo now).Valid) :
    ∃ occs, generate r wFrom wTo now = some occs := by
  have := genLoop_isSome r.frequency r.occurrences r.amount r.category
    r.description (wFrom.getD r.startDate) (intervalOr1_pos r.interval) h2
    (genFuel r (windowEnd r wTo now)) r.startDate 0 h1
    (by unfold genFuel; omega)
  exact Option.isSome_iff_exists.mp this

/-- C9 witness: termination instantiated on the weekly scenario rule. -/
theorem mm_c9_witness :
    ∃ occs, generate weeklyRule none (some ⟨2024, 12, 31⟩) ⟨2024, 1, 1⟩ = some occs :=
  mm_c9 weeklyRule none (some ⟨2024, 12, 31⟩) ⟨2024, 1, 1⟩ (by decide) (by decide)

/-- C10: a falsy interval is coerced to 1.  During generation, a rule stored
with a null or zero interval produces exactly the sequence of the same rule
with interval 1 (the loop advances by `rule.interval || 1`); at creation, a
missing or zero request interval is stored as 1 (`interval || 1`). -/
theorem mm_c10 :
    (∀ (r : Rule) (wFrom wTo : Option Date) (now : Date),
        generate { r with interval := none } wFrom wTo now
          = generate { r with interval := some 1 } wFrom wTo now) ∧
    (∀ (r : Rule) (wFrom wTo : Option Date) (now : Date),
        generate { r with interval := some 0 } wFrom wTo now
          = generate { r with interval := some 1 } wFrom wTo now) ∧
    (∀ b : CreateBody, (createRule { b with interval := none }).interval = some 1) ∧
    (∀ b : CreateBody, (createRule { b with interval := some 0 }).interval = some 1) :=
  ⟨fun _ _ _ _ => rfl, fun _ _ _ _ => rfl, fun _ => rfl, fun _ => rfl⟩

end MoneyMap
